import Mathlib

/-!
Shallow embedding of the puffin runtime engine (an AWK-like pattern-action
language applied to files found by a directory walk), together with proofs
about its value model, variable store, assignment discipline, identifier
analysis and single-threaded tree walk.

Conventions of the embedding:
* Rust machine integers (i64) are modelled as `Int` normalised with `wrap64`
  (twos-complement wrapping, the release-build behaviour noted in the design
  notes of the specification).
* Fallible Rust code returning `crate::Result` is modelled with `Except Err`.
* A Rust `panic!` (and a trap such as division by zero, an out-of-bounds
  index, or an `unwrap` failure) is modelled by the error constructor
  `Err.panic`, kept distinct from recoverable runtime errors `Err.runtime`.
* Mutation through a `&mut` reference or a held mutex becomes explicit state
  passing: a function that mutates the store takes the store and returns the
  new store, with an early return carrying the store unchanged.
-/

namespace Puffin

/-- Errors of the engine, mirroring the error enum of the library crate,
with an extra constructor `panic` marking a Rust panic or trap (process
divergence, not a recoverable error value). -/
inductive Err where
  | compileError (msg : String)
  | attributeInBeginOrEnd
  | ioError (kind : String)
  | runtime (msg : String)
  | panic (msg : String)
deriving DecidableEq, Repr

/-- Kinds of special values, from SpecialValueKind: inode numbers, modes,
uids and gids, device numbers. -/
inductive SpecialValueKind where
  | Ino
  | Mode
  | Uid
  | Devno
deriving DecidableEq, Repr

/-- A special value: an unsigned integer payload with a kind tag, from
struct SpecialValue. The u64 payload is modelled as Nat. -/
structure SpecialValue where
  val : Nat
  kind : SpecialValueKind
deriving DecidableEq, Repr

/-- Runtime values, from enum Value: signed 64-bit integer, string, boolean,
or special value. The constructor for strings is named Str to avoid clashing
with the builtin String type. -/
inductive Value where
  | Int (i : Int)
  | Str (s : String)
  | Boolean (b : Bool)
  | Special (sv : SpecialValue)
deriving DecidableEq, Repr

/-- Smallest i64, as an Int. -/
def i64Min : Int := -(2 ^ 63)

/-- Largest i64, as an Int. -/
def i64Max : Int := 2 ^ 63 - 1

/-- Twos-complement wrapping of an Int into the i64 range. -/
def wrap64 (i : Int) : Int := (i + 2 ^ 63) % 2 ^ 64 - 2 ^ 63

/-- Accumulate a list of decimal digit characters into a Nat. -/
def digitsToNat (l : List Char) : Nat :=
  l.foldl (fun n c => n * 10 + (c.toNat - ('0').toNat)) 0

/-- Parse a nonempty all-digit character list, as the digit part of Rust
str::parse for i64. -/
def parseNatDigits (l : List Char) : Option Nat :=
  if l ≠ [] ∧ l.all (fun c => c.isDigit) then some (digitsToNat l) else none

/-- Model of Rust str::parse for i64: an optional sign, then one or more
ASCII digits, rejecting anything else and rejecting values outside the i64
range. -/
def parseI64 (s : String) : Option Int :=
  match s.data with
  | '+' :: rest =>
    (parseNatDigits rest).bind fun n =>
      if (n : Int) ≤ i64Max then some (n : Int) else none
  | '-' :: rest =>
    (parseNatDigits rest).bind fun n =>
      if (n : Int) ≤ 2 ^ 63 then some (-(n : Int)) else none
  | l =>
    (parseNatDigits l).bind fun n =>
      if (n : Int) ≤ i64Max then some (n : Int) else none

/-- Truthiness, from Value::is_truthy: nonzero integer, nonempty string,
boolean as itself; interpreting a special value as a boolean is a runtime
error. -/
def Value.is_truthy : Value → Except Err Bool
  | .Int i => .ok (decide (i ≠ 0))
  | .Str s => .ok (decide (s ≠ ""))
  | .Boolean b => .ok b
  | .Special _ => .error (.runtime "Cannot evaluate a special value as a boolean")

/-- Integer coercion, from Value::to_signed_int: an integer as-is, a string
via parse with fallback 0, a boolean as 0 or 1; coercing a special value is a
runtime error. -/
def Value.to_signed_int : Value → Except Err ℤ
  | .Int i => .ok i
  | .Str s => .ok ((parseI64 s).getD 0)
  | .Boolean b => .ok (if b then 1 else 0)
  | .Special _ => .error (.runtime "Cannot evaluate a special value as an integer")

/-- Binary operator kinds of the language, from enum OpKind. -/
inductive OpKind where
  | EqualEqual
  | Greater
  | GreaterEqual
  | Less
  | LessEqual
  | Plus
  | Minus
  | Multiply
  | Divide
deriving DecidableEq, Repr

/-- Equality of a special value with another value, from
SpecialValue::equality: equal to a non-negative integer with the same
magnitude, equal to a special value of the same kind with the same payload;
comparing with a negative integer, a special of a different kind, a string or
a boolean is a runtime error. -/
def SpecialValue.equality (self : SpecialValue) (other : Value) : Except Err Value :=
  match other with
  | .Int v =>
    if v < 0 then
      .error (.runtime "Cannot compare a special value to a negative integer")
    else
      .ok (.Boolean (decide (self.val = v.toNat)))
  | .Special s =>
    if self.kind = s.kind then
      .ok (.Boolean (decide (self.val = s.val)))
    else
      .error (.runtime "Cannot compare special values of different kinds")
  | _ => .error (.runtime "Cannot compare a special value to this value")

/-- Binary operation on a special value, from SpecialValue::binary_op:
equality delegates to SpecialValue::equality, every other operator is a
runtime error. -/
def SpecialValue.binary_op (self : SpecialValue) (op : OpKind) (other : Value) : Except Err Value :=
  match op with
  | .EqualEqual => self.equality other
  | _ => .error (.runtime "Cannot apply this operator to a special value")

/-- Equality dispatch, from Value::equality: if either operand is special,
delegate to the special-value rules; otherwise structural equality. The
fall-through arm for other operators models the todo! panic of the source. -/
def Value.equality (op : OpKind) (val1 val2 : Value) : Except Err Value :=
  match val1 with
  | .Special s => s.binary_op op val2
  | _ =>
    match val2 with
    | .Special s => s.binary_op op val1
    | _ =>
      match op with
      | .EqualEqual => .ok (.Boolean (decide (val1 = val2)))
      | _ => .error (.panic "not yet implemented")

/-- Coerce both operands to integers and apply an integer function, from
Value::integer_op. The function argument may itself diverge, which models the
closure for division. -/
def Value.integer_op (l r : Value) (g : ℤ → ℤ → Except Err ℤ) : Except Err Value := do
  let a ← l.to_signed_int
  let b ← r.to_signed_int
  let c ← g a b
  .ok (.Int c)

/-- Coerce both operands to integers and compare, from Value::int_to_bool_op. -/
def Value.int_to_bool_op (l r : Value) (g : ℤ → ℤ → Bool) : Except Err Value := do
  let a ← l.to_signed_int
  let b ← r.to_signed_int
  .ok (.Boolean (g a b))

/-- The division closure of Value::binary_op. Rust integer division panics on
a zero divisor and on i64 overflow; otherwise it truncates toward zero. -/
def divideClosure (l r : Int) : Except Err Int :=
  if r = 0 then .error (.panic "attempt to divide by zero")
  else if l = i64Min ∧ r = -1 then .error (.panic "attempt to divide with overflow")
  else .ok (Int.tdiv l r)

/-- Binary operation dispatch, from Value::binary_op: the four arithmetic
operators coerce both sides and return an integer (wrapping on overflow), the
four comparisons coerce both sides and return a boolean, equality delegates
to Value::equality. -/
def Value.binary_op (self other : Value) (op : OpKind) : Except Err Value :=
  match op with
  | .Plus => Value.integer_op self other (fun a b => .ok (wrap64 (a + b)))
  | .Minus => Value.integer_op self other (fun a b => .ok (wrap64 (a - b)))
  | .Multiply => Value.integer_op self other (fun a b => .ok (wrap64 (a * b)))
  | .Divide => Value.integer_op self other divideClosure
  | .Greater => Value.int_to_bool_op self other (fun a b => decide (a > b))
  | .GreaterEqual => Value.int_to_bool_op self other (fun a b => decide (a ≥ b))
  | .Less => Value.int_to_bool_op self other (fun a b => decide (a < b))
  | .LessEqual => Value.int_to_bool_op self other (fun a b => decide (a ≤ b))
  | .EqualEqual => Value.equality .EqualEqual self other

/-- Display of a special value, from the Display impl: modes render in
octal with the 0o prefix, everything else renders in decimal. -/
def SpecialValue.display (s : SpecialValue) : String :=
  match s.kind with
  | .Mode => "0o" ++ String.mk (Nat.toDigits 8 s.val)
  | _ => toString s.val

/-- Display of a value, from the Display impl for Value. -/
def Value.display : Value → String
  | .Int i => toString i
  | .Str s => s
  | .Boolean true => "True"
  | .Boolean false => "False"
  | .Special s => s.display

/-- File type classification, from the match on std FileType in
Attribute::evaluate_needs_stat. -/
inductive FType where
  | file
  | dir
  | block
  | char
  | fifo
  | socket
  | unknown
deriving DecidableEq, Repr

/-- File metadata record, the fields of std fs::Metadata read by the
attribute evaluator. Fields that the source converts from u64 to i64 with
try_into().unwrap() are modelled directly as integers. -/
structure Metadata where
  blksize : Int := 0
  blocks : Int := 0
  ino : Nat := 0
  dev : Nat := 0
  rdev : Nat := 0
  mode : Nat := 0
  size : Int := 0
  nlink : Int := 0
  uid : Nat := 0
  gid : Nat := 0
  atime : Int := 0
  ctime : Int := 0
  mtime : Int := 0
  ftype : FType := .file
deriving DecidableEq, Repr

deriving instance DecidableEq for Except

/-- The per-file evaluation context, from struct FileState: a path together
with the cached outcome of the one-shot stat cell (a metadata record or an
I/O error). -/
structure FileState where
  path : String
  md : Except Err Metadata
deriving DecidableEq, Repr

/-- Last path component, modelling std Path::file_name for the plain
relative paths the walker builds (none for a path ending in a parent
component). -/
def file_name (p : String) : Option String :=
  match ((p.splitOn "/").filter (fun c => c ≠ "")).getLast? with
  | some c => if c = ".." then none else some c
  | none => none

/-- File attributes of the language, from enum Attribute. -/
inductive Attribute where
  | BlkSize
  | Blocks
  | Dev
  | Ino
  | Mode
  | Name
  | NLink
  | Owner
  | Group
  | Path
  | RDev
  | Size
  | Atime
  | Mtime
  | Ctime
  | Type
deriving DecidableEq, Repr

/-- Attribute evaluation that needs a stat, from
Attribute::evaluate_needs_stat: reads the cached metadata result and builds
the value; integer-valued attributes give integers, identity-like attributes
give special values, and the file type gives a string. -/
def Attribute.evaluate_needs_stat (a : Attribute) (f : FileState) : Except Err Value := do
  let md ← f.md
  match a with
  | .BlkSize => .ok (.Int md.blksize)
  | .Blocks => .ok (.Int md.blocks)
  | .Ino => .ok (.Special ⟨md.ino, .Ino⟩)
  | .Dev => .ok (.Special ⟨md.dev, .Devno⟩)
  | .RDev => .ok (.Special ⟨md.rdev, .Devno⟩)
  | .Mode => .ok (.Special ⟨md.mode, .Mode⟩)
  | .Size => .ok (.Int md.size)
  | .NLink => .ok (.Int md.nlink)
  | .Owner => .ok (.Special ⟨md.uid, .Uid⟩)
  | .Group => .ok (.Special ⟨md.gid, .Uid⟩)
  | .Atime => .ok (.Int md.atime)
  | .Ctime => .ok (.Int md.ctime)
  | .Mtime => .ok (.Int md.mtime)
  | .Type =>
    .ok (.Str (match md.ftype with
      | .dir => "dir"
      | .file => "file"
      | .block => "block"
      | .char => "char"
      | .fifo => "fifo"
      | .socket => "socket"
      | .unknown => "unknown"))
  | .Name => .error (.panic "unreachable")
  | .Path => .error (.panic "unreachable")

/-- Attribute evaluation with a file present, from
Attribute::evaluate_with_file: name and path never touch the stat cell. -/
def Attribute.evaluate_with_file (a : Attribute) (f : FileState) : Except Err Value :=
  match a with
  | .Name => .ok (.Str ((file_name f.path).getD f.path))
  | .Path => .ok (.Str f.path)
  | _ => a.evaluate_needs_stat f

/-- Attribute evaluation, from Attribute::evaluate: without a FileState
(inside a BEGIN or END action) every attribute yields the
AttributeInBeginOrEnd error. -/
def Attribute.evaluate (a : Attribute) (f : Option FileState) : Except Err Value :=
  match f with
  | some fs => a.evaluate_with_file fs
  | none => .error .attributeInBeginOrEnd

/-- A scalar slot index, from struct Identifier. -/
structure Identifier where
  id : Nat
deriving DecidableEq, Repr

mutual

/-- Expressions of the language, from enum Expression. The BinaryOp struct
of the source is flattened into the Bin constructor. -/
inductive Expression where
  | Bin (kind : OpKind) (left : Expression) (right : Expression)
  | Attr (a : Attribute)
  | Atom (v : Value)
  | Var (v : Variable)

/-- Variables, from enum Variable: unresolved name, scalar slot, whole
array, or array entry. The ArraySubscript struct of the source is flattened
into the ArrSub constructor. -/
inductive Variable where
  | NotYetKnown (name : String)
  | Scalar (id : Identifier)
  | Arr (id : Nat)
  | ArrSub (id : Nat) (subscript : Expression)

end

/-- Statements, from enum Statement. The Assignment struct of the source is
flattened into the Assignment constructor. -/
inductive Statement where
  | Assignment (lhs : Variable) (rhs : Expression)
  | Print (exprs : List Expression)

/-- A routine condition, from struct Condition. -/
structure Condition where
  expr : Expression

/-- An action, from struct Action: an optional statement list, absence
meaning the default action of printing the current path. -/
structure Action where
  statements : Option (List Statement)

/-- A routine, from struct Routine: an optional condition and an action. -/
structure Routine where
  cond : Option Condition
  action : Action

/-- The associative arrays of the store, from struct Arrays. Each array (a
HashMap from Value to i64 in the source) is modelled as an association list
looked up by structural equality; iteration order is unspecified in the
source and is the list order here. -/
structure Arrays where
  arrs : List (List (Value × Int))
deriving DecidableEq, Repr

/-- The contents guarded by the two mutexes of struct LockedVars: the scalar
slot vector and the arrays. The Locked and Unlocked views below share this
one representation because the embedding has no locks to hold. -/
structure VarStore where
  scalars : List Int
  arrays : Arrays
deriving DecidableEq, Repr

/-- Lookup in one associative array, the HashMap::get of the source. -/
def arrGet : List (Value × Int) → Value → Option Int
  | [], _ => none
  | (k, v) :: rest, key => if k = key then some v else arrGet rest key

/-- Insert-or-replace in one associative array, the
entry().insert_entry() of the source. -/
def arrPut : List (Value × Int) → Value → Int → List (Value × Int)
  | [], key, v => [(key, v)]
  | (k, w) :: rest, key, v =>
    if k = key then (key, v) :: rest else (k, w) :: arrPut rest key v

/-- Serialization of one associative array, from Arrays::array_to_string:
the first entry renders as key, colon, space, value, and every further entry
is appended preceded by a newline. -/
def array_to_string (arr : List (Value × Int)) : String :=
  match arr with
  | [] => ""
  | (k, v) :: rest =>
    rest.foldl (fun s p => s ++ ("\n" ++ (p.1.display ++ ": " ++ toString p.2)))
      (k.display ++ ": " ++ toString v)

/-- The two presentation modes of the variable store, from enum
VariableState: Locked is the default (locks would be taken per access),
Unlocked is held exclusively by the current assignment statement. The
embedding has no locks, so both carry the store contents. -/
inductive VariableState where
  | Locked (lv : VarStore)
  | Unlocked (uv : VarStore)

mutual

/-- Expression evaluation. Modelled from the spec: the modern Expression
impl of the ast module is not under src; section 4.4 of the specification
prescribes a pure recursive walk that evaluates Bin children left to right,
delegates Attr to Attribute::evaluate, Var to the store view, and propagates
the first error. -/
def Expression.evaluate (f : Option FileState) (vars : VariableState) : Expression → Except Err Value
  | .Bin kind l r => do
    let lv ← l.evaluate f vars
    let rv ← r.evaluate f vars
    lv.binary_op rv kind
  | .Attr a => a.evaluate f
  | .Atom v => .ok v
  | .Var v => VariableState.get_variable vars f v
termination_by e => (sizeOf e, 0)

/-- Variable read dispatch, from VariableState::get_variable. -/
def VariableState.get_variable (s : VariableState) (f : Option FileState) (var : Variable) : Except Err Value :=
  match s with
  | .Locked l => LockedVars.get_variable l f var
  | .Unlocked u => UnlockedVars.get_variable u f var
termination_by (sizeOf var, 3)

/-- Variable read in the Locked view, from LockedVars::get_variable: an
unresolved variable panics, a scalar reads its slot, a bare array name reads
the serialization of the array, and an array entry builds an Unlocked view
of the current contents and delegates to Arrays::get_variable. -/
def LockedVars.get_variable (st : VarStore) (f : Option FileState) : Variable → Except Err Value
  | .NotYetKnown _ => .error (.panic "Attempted to use unresolved variable")
  | .Scalar id =>
    match st.scalars.get? id.id with
    | some v => .ok (.Int v)
    | none => .error (.panic "index out of bounds")
  | .Arr id =>
    match st.arrays.arrs.get? id with
    | some arr => .ok (.Str (array_to_string arr))
    | none => .error (.panic "index out of bounds")
  | .ArrSub id sub => Arrays.get_variable st.arrays f (.Unlocked st) id sub
termination_by var => (sizeOf var, 2)

/-- Variable read in the Unlocked view, from UnlockedVars::get_variable:
identical to the Locked view except that reading a bare array name in this
context panics. -/
def UnlockedVars.get_variable (st : VarStore) (f : Option FileState) : Variable → Except Err Value
  | .NotYetKnown _ => .error (.panic "Attempted to use unresolved variable")
  | .Scalar id =>
    match st.scalars.get? id.id with
    | some v => .ok (.Int v)
    | none => .error (.panic "index out of bounds")
  | .Arr _ => .error (.panic "Cannot evaluate an array name in this context")
  | .ArrSub id sub => Arrays.get_variable st.arrays f (.Unlocked st) id sub
termination_by var => (sizeOf var, 2)

/-- Array entry read, from Arrays::get_variable: index the array, evaluate
the subscript expression in the given view, and look the key up, with 0 as
the default for a missing key. The lookup does not modify the array; like
the &self receiver of the source, this function is a pure observer of the
store. -/
def Arrays.get_variable (a : Arrays) (f : Option FileState) (s : VariableState) (id : Nat) (sub : Expression) : Except Err Value :=
  match a.arrs.get? id with
  | none => .error (.panic "index out of bounds")
  | some arr => do
    let k ← sub.evaluate f s
    match arrGet arr k with
    | some v => .ok (.Int v)
    | none => .ok (.Int 0)
termination_by (sizeOf sub, 1)

end

/-- Array entry write, from Arrays::set_variable: coerce the new value with
to_integer and insert-or-replace the entry; the coercion of a special value
diverges with a runtime error before any modification. -/
def Arrays.set_variable (a : Arrays) (id : Nat) (subscript : Value) (new : Value) : Except Err Arrays :=
  match a.arrs.get? id with
  | none => .error (.panic "index out of bounds")
  | some arr =>
    match new.to_signed_int with
    | .error e => .error e
    | .ok n => .ok ⟨a.arrs.set id (arrPut arr subscript n)⟩

/-- Assignment, from LockedVars::set_variable_expression. Both mutexes are
acquired (implicitly, in the embedding), an Unlocked view of the current
contents is built, the right-hand side is evaluated against it, and only
then is the destination written. Explicit state passing: the second
component is the store after the statement, and every early return leaves
the store exactly as it was, because the source performs no write before the
corresponding point. -/
def LockedVars.set_variable_expression (st : VarStore) (assignee : Variable) (f : Option FileState) (expr : Expression) : Option Err × VarStore :=
  match expr.evaluate f (.Unlocked st) with
  | .error e => (some e, st)
  | .ok new =>
    match assignee with
    | .NotYetKnown _ => (some (.panic "Attempted to use unresolved variable"), st)
    | .Scalar id =>
      match new.to_signed_int with
      | .error e => (some e, st)
      | .ok n =>
        if id.id < st.scalars.length then
          (none, { st with scalars := st.scalars.set id.id n })
        else
          (some (.panic "index out of bounds"), st)
    | .ArrSub aid sub =>
      match sub.evaluate f (.Unlocked st) with
      | .error e => (some e, st)
      | .ok subscript =>
        match Arrays.set_variable st.arrays aid subscript new with
        | .error e => (some e, st)
        | .ok arrays2 => (none, { st with arrays := arrays2 })
    | .Arr _ => (some (.panic "Cannot assign to an array name"), st)

/-- Assignment dispatch, from VariableState::set_variable_expression:
assigning through an Unlocked view panics. -/
def VariableState.set_variable_expression (s : VariableState) (assignee : Variable) (f : Option FileState) (expr : Expression) : Option Err × VarStore :=
  match s with
  | .Locked l => LockedVars.set_variable_expression l assignee f expr
  | .Unlocked u => (some (.panic "Cannot assign to unlocked variable"), u)

/-- Mutable state threaded through the interpreter: the variable store and
the lines written to the output sink so far. The sink serializes writes, so
in the single-threaded embedding it is a list of written strings. -/
structure RunState where
  store : VarStore
  output : List String
deriving DecidableEq, Repr

/-- Evaluate a list of expressions left to right, propagating the first
error, as the Print statement does with its argument list. -/
def evalExprList (f : Option FileState) (vars : VariableState) : List Expression → Except Err (List Value)
  | [] => .ok []
  | e :: rest => do
    let v ← e.evaluate f vars
    let vs ← evalExprList f vars rest
    .ok (v :: vs)

/-- Execute one statement. Modelled from the spec: Statement::interpret of
the modern ast module is not under src; section 4.6 prescribes that an
assignment follows the store discipline of section 4.3 and that print
evaluates each expression in the Locked view, joins the displayed values
with single spaces and terminates with a newline, writing one line per
statement. -/
def runStatement (s : Statement) (f : Option FileState) (rs : RunState) : RunState × Option Err :=
  match s with
  | .Assignment lhs rhs =>
    let r := LockedVars.set_variable_expression rs.store lhs f rhs
    ({ rs with store := r.2 }, r.1)
  | .Print exprs =>
    match evalExprList f (.Locked rs.store) exprs with
    | .error e => (rs, some e)
    | .ok vals =>
      ({ rs with output := rs.output ++ [String.intercalate " " (vals.map Value.display) ++ "\n"] }, none)

/-- Execute the statements of an action in order; the first error stops the
sequence, keeping the mutations already made. -/
def runStatements (sts : List Statement) (f : Option FileState) (rs : RunState) : RunState × Option Err :=
  match sts with
  | [] => (rs, none)
  | s :: rest =>
    match runStatement s f rs with
    | (rs2, none) => runStatements rest f rs2
    | (rs2, some e) => (rs2, some e)

/-- Execute an action. Modelled from the spec: Action::interpret of the
modern ast module is not under src; an absent statement list is the default
action of printing the current path followed by a newline, and does nothing
in a BEGIN or END context where no file is present. -/
def runAction (a : Action) (f : Option FileState) (rs : RunState) : RunState × Option Err :=
  match a.statements with
  | some sts => runStatements sts f rs
  | none =>
    match f with
    | some fs => ({ rs with output := rs.output ++ [fs.path ++ "\n"] }, none)
    | none => (rs, none)

/-- Run one routine against a file. Modelled from the spec: section 4.5
prescribes evaluating the condition in the Locked view and executing the
action when the condition is truthy or absent. -/
def runRoutine (r : Routine) (f : FileState) (rs : RunState) : RunState × Option Err :=
  match r.cond with
  | some c =>
    match c.expr.evaluate (some f) (.Locked rs.store) with
    | .error e => (rs, some e)
    | .ok v =>
      match v.is_truthy with
      | .error e => (rs, some e)
      | .ok true => runAction r.action (some f) rs
      | .ok false => (rs, none)
  | none => runAction r.action (some f) rs

/-- Keep only the errors that propagate past the per-file boundary,
from filter_non_fatal_errors: runtime errors propagate; compile, attribute
and I/O errors are absorbed after logging. A modelled panic always
propagates, because a Rust panic is not caught anywhere in the program. -/
def filterErrKeep : Err → Option Err
  | .runtime m => some (.runtime m)
  | .panic m => some (.panic m)
  | _ => none

/-- Run all routines for one file. Modelled from the spec: run_routines of
the modern ast module is not under src; sections 4.5 and 7 prescribe that
routines run in order, that the first error skips all remaining routines for
the file, and that the error is filtered at the per-file boundary with
filter_non_fatal_errors, which is under src. -/
def run_routines (routines : List Routine) (f : FileState) (rs : RunState) : RunState × Option Err :=
  match routines with
  | [] => (rs, none)
  | r :: rest =>
    match runRoutine r f rs with
    | (rs2, none) => run_routines rest f rs2
    | (rs2, some e) => (rs2, filterErrKeep e)

/-- A node of the filesystem under the walk root: a regular file or a
directory with its entries. The metadata carried is what a stat of the node
would return. -/
inductive FsNode where
  | file (name : String) (md : Metadata)
  | dir (name : String) (md : Metadata) (children : List FsNode)

/-- Name accessor of a filesystem node. -/
def FsNode.name : FsNode → String
  | .file n _ => n
  | .dir n _ _ => n

/-- Metadata accessor of a filesystem node. -/
def FsNode.md : FsNode → Metadata
  | .file _ m => m
  | .dir _ m _ => m

mutual

/-- Number of nodes of a subtree, the node itself included. -/
def FsNode.size : FsNode → Nat
  | .file _ _ => 1
  | .dir _ _ cs => 1 + sizeListFs cs

/-- Total number of nodes of a list of subtrees. -/
def sizeListFs : List FsNode → Nat
  | [] => 0
  | c :: cs => FsNode.size c + sizeListFs cs

end

/-- The FileState the walker builds for an entry, from
FileState::new(ent.path(), None): the stat cell is empty and a later stat
returns the metadata of the node. -/
def FileState.ofNode (path : String) (n : FsNode) : FileState :=
  ⟨path, .ok n.md⟩

/-- Walker measure of a stack of pending directories. -/
def stackMeasure (stack : List (String × FsNode)) : Nat :=
  (stack.map (fun pt => FsNode.size pt.2)).sum

/-- Process the entries of one directory, from the body of the while loop of
treewalk_single_threaded: for each entry, push it for later descent when it
is a directory, then run the routines against it; an error from run_routines
aborts immediately. Returns the state, the error if any, and the pushed
paths in push order. -/
def processEntries (routines : List Routine) (path : String) : List FsNode → RunState → RunState × Option Err × List (String × FsNode)
  | [], rs => (rs, none, [])
  | c :: cs, rs =>
    let childPath := path ++ "/" ++ c.name
    let pushed : List (String × FsNode) :=
      match c with
      | .dir _ _ _ => [(childPath, c)]
      | .file _ _ => []
    match run_routines routines (FileState.ofNode childPath c) rs with
    | (rs2, some e) => (rs2, some e, pushed)
    | (rs2, none) =>
      let r := processEntries routines path cs rs2
      (r.1, r.2.1, pushed ++ r.2.2)

/-- The pushed entries of processEntries are directories drawn from the
entry list, so their total size is bounded by the size of the list. -/
theorem processEntries_pushes_le (routines : List Routine) (path : String) (cs : List FsNode) (rs : RunState) :
    stackMeasure (processEntries routines path cs rs).2.2 ≤ sizeListFs cs := by
  induction cs generalizing rs with
  | nil => simp [processEntries, stackMeasure]
  | cons c cs ih =>
    simp only [processEntries]
    cases hr : run_routines routines (FileState.ofNode (path ++ "/" ++ c.name) c) rs with
    | mk rs2 err =>
      cases err with
      | some e =>
        cases c with
        | file n m => simp [stackMeasure, sizeListFs]
        | dir n m cs2 =>
          simp [stackMeasure, sizeListFs]
      | none =>
        have h2 := ih rs2
        cases c with
        | file n m =>
          simpa [stackMeasure, sizeListFs] using Nat.le_trans h2 (by omega)
        | dir n m cs2 =>
          simp only [stackMeasure, List.map_append, List.sum_append, sizeListFs] at h2 ⊢
          simp [FsNode.size]
          omega

/-- The stack-driven loop of treewalk_single_threaded: pop a pending
directory, read its entries (popping a non-directory models the unwrap panic
of read_dir), process them, and push the entry directories for later
descent. The Vec of the source pushes and pops at the back; here the head of
the list is the top of the stack, so the pushes are appended in reverse. -/
def walk (routines : List Routine) (stack : List (String × FsNode)) (rs : RunState) : RunState × Option Err :=
  match stack with
  | [] => (rs, none)
  | (_, .file _ _) :: _ => (rs, some (.panic "called unwrap on an Err value"))
  | (path, .dir _ _ cs) :: rest =>
    let r := processEntries routines path cs rs
    match r.2.1 with
    | some e => (r.1, some e)
    | none => walk routines (r.2.2.reverse ++ rest) r.1
termination_by stackMeasure stack
decreasing_by
  simp only [stackMeasure, List.map_append, List.sum_append, List.map_reverse, List.sum_reverse]
  have h := processEntries_pushes_le routines path cs rs
  simp only [stackMeasure] at h
  simp [FsNode.size]
  omega

/-- Single-threaded walk, from treewalk_single_threaded: seed the stack with
the root path and run the loop. The root FileState passed in is consumed for
its path only, as in the source. -/
def treewalk_single_threaded (routines : List Routine) (rootPath : String) (root : FsNode) (rs : RunState) : RunState × Option Err :=
  walk routines [(rootPath, root)] rs

/-- Entry of the walk, from treewalk: run the routines against the root
itself first, aborting on error, then dispatch on the thread count; this is
the single-threaded branch. -/
def treewalk1 (routines : List Routine) (rootPath : String) (root : FsNode) (rs : RunState) : RunState × Option Err :=
  match run_routines routines (FileState.ofNode rootPath root) rs with
  | (rs2, some e) => (rs2, some e)
  | (rs2, none) => treewalk_single_threaded routines rootPath root rs2

/-- Full single-threaded run of a program over a directory tree. Modelled
from the spec: Program::run is not under src; section 2 prescribes the order
BEGIN, walk, END, with a fatal walk error returned to the driver. The store
starts with num_scalars zeroed slots and num_arrays empty arrays. -/
def runProgramSingle (beginAct endAct : Option Action) (routines : List Routine) (numScalars numArrays : Nat) (rootPath : String) (root : FsNode) : RunState × Option Err :=
  let rs0 : RunState := ⟨⟨List.replicate numScalars 0, ⟨List.replicate numArrays []⟩⟩, []⟩
  let b :=
    match beginAct with
    | some a => runAction a none rs0
    | none => (rs0, none)
  match b with
  | (rs1, some e) => (rs1, some e)
  | (rs1, none) =>
    match treewalk1 routines rootPath root rs1 with
    | (rs2, some e) => (rs2, some e)
    | (rs2, none) =>
      match endAct with
      | some a => runAction a none rs2
      | none => (rs2, none)

/-- Lookup by name in an association list, the HashMap::get of the maps used
by the analysis pass. -/
def lookupName : List (String × Nat) → String → Option Nat
  | [], _ => none
  | (k, v) :: rest, key => if k = key then some v else lookupName rest key

/-- The resolution state of the analysis pass, from struct VarsMap: the
immutable map of names already known to be arrays, and the growing map of
names discovered to be scalars. -/
structure VarsMap where
  known_arrays : List (String × Nat)
  scalars_map : List (String × Nat)

/-- Resolve a name to a scalar slot, from VarsMap::scalar: an existing entry
keeps its slot, a new name gets the next contiguous slot index. -/
def VarsMap.scalar (m : VarsMap) (name : String) : Variable × VarsMap :=
  let prev_len := m.scalars_map.length
  match lookupName m.scalars_map name with
  | some id => (.Scalar ⟨id⟩, m)
  | none => (.Scalar ⟨prev_len⟩, { m with scalars_map := m.scalars_map ++ [(name, prev_len)] })

/-- Resolve a name, from VarsMap::new_variable: a name in the known-array
map becomes that array, anything else becomes a scalar. -/
def VarsMap.new_variable (m : VarsMap) (name : String) : Variable × VarsMap :=
  match lookupName m.known_arrays name with
  | some id => (.Arr id, m)
  | none => m.scalar name

/-- Analysis of an expression, from analyze_expression: a Var holding a
NotYetKnown name is replaced by its resolution; any other Var, including an
array subscript whose subscript expression could itself contain unresolved
names, is left untouched, exactly as in the source. -/
def analyze_expression : Expression → VarsMap → Expression × VarsMap
  | .Attr a, m => (.Attr a, m)
  | .Atom v, m => (.Atom v, m)
  | .Var v, m =>
    match v with
    | .NotYetKnown name =>
      let r := m.new_variable name
      (.Var r.1, r.2)
    | v => (.Var v, m)
  | .Bin k l r, m =>
    let r1 := analyze_expression l m
    let r2 := analyze_expression r r1.2
    (.Bin k r1.1 r2.1, r2.2)

/-- Analysis of the expression list of a print statement. -/
def analyze_expressions : List Expression → VarsMap → List Expression × VarsMap
  | [], m => ([], m)
  | e :: rest, m =>
    let r1 := analyze_expression e m
    let r2 := analyze_expressions rest r1.2
    (r1.1 :: r2.1, r2.2)

/-- Analysis of an assignment, from analyze_assignment: resolve the left
side when unresolved, panic if it resolves to a bare array name or stays
unresolved, then analyze the right side. The subscript expression of an
array-subscript left side is not analyzed, exactly as in the source. -/
def analyze_assignment (lhs : Variable) (rhs : Expression) (m : VarsMap) : Except Err ((Variable × Expression) × VarsMap) :=
  let r :=
    match lhs with
    | .NotYetKnown name => m.new_variable name
    | v => (v, m)
  match r.1 with
  | .Arr _ => .error (.panic "Cannot assign to an array name")
  | .NotYetKnown _ => .error (.panic "Failed to resolve variable")
  | new_lhs =>
    let r2 := analyze_expression rhs r.2
    .ok ((new_lhs, r2.1), r2.2)

/-- Analysis of a statement list, from the loop of analyze_action. -/
def analyze_statements : List Statement → VarsMap → Except Err (List Statement × VarsMap)
  | [], m => .ok ([], m)
  | .Assignment lhs rhs :: rest, m => do
    let r1 ← analyze_assignment lhs rhs m
    let r2 ← analyze_statements rest r1.2
    .ok (.Assignment r1.1.1 r1.1.2 :: r2.1, r2.2)
  | .Print es :: rest, m => do
    let r1 := analyze_expressions es m
    let r2 ← analyze_statements rest r1.2
    .ok (.Print r1.1 :: r2.1, r2.2)

/-- Analysis of an action, from analyze_action: nothing to do when the
action is absent or has no statement list. -/
def analyze_action : Option Action → VarsMap → Except Err (Option Action × VarsMap)
  | none, m => .ok (none, m)
  | some act, m =>
    match act.statements with
    | none => .ok (some act, m)
    | some sts => do
      let r ← analyze_statements sts m
      .ok (some ⟨some r.1⟩, r.2)

/-- Analysis of the action of a routine, the Some branch of analyze_action. -/
def analyze_statements_of_action (act : Action) (m : VarsMap) : Except Err (Action × VarsMap) :=
  match act.statements with
  | none => .ok (act, m)
  | some sts => do
    let r ← analyze_statements sts m
    .ok (⟨some r.1⟩, r.2)

/-- Analysis of one routine, from analyze_routine. -/
def analyze_routine (r : Routine) (m : VarsMap) : Except Err (Routine × VarsMap) := do
  let c : Option Condition × VarsMap :=
    match r.cond with
    | some c =>
      let r1 := analyze_expression c.expr m
      (some ⟨r1.1⟩, r1.2)
    | none => (none, m)
  let a ← analyze_statements_of_action r.action c.2
  .ok (⟨c.1, a.1⟩, a.2)

/-- Analysis of the routine list. -/
def analyze_routines : List Routine → VarsMap → Except Err (List Routine × VarsMap)
  | [], m => .ok ([], m)
  | r :: rest, m => do
    let r1 ← analyze_routine r m
    let r2 ← analyze_routines rest r1.2
    .ok (r1.1 :: r2.1, r2.2)

/-- The analysis pass, from analyze: walk BEGIN, the routines, then END,
resolving NotYetKnown variables, and return the number of distinct scalars.
The source mutates the AST in place; here the transformed AST is returned
alongside the count. -/
def analyze (known_arrays : List (String × Nat)) (beginAct endAct : Option Action) (routines : List Routine) : Except Err ((Option Action × Option Action × List Routine) × Nat) := do
  let m0 : VarsMap := ⟨known_arrays, []⟩
  let b ← analyze_action beginAct m0
  let rs ← analyze_routines routines b.2
  let e ← analyze_action endAct rs.2
  .ok ((b.1, e.1, rs.1), e.2.scalars_map.length)

mutual

/-- Decides whether an expression still contains a NotYetKnown variable. -/
def Expression.hasUnresolved : Expression → Bool
  | .Bin _ l r => l.hasUnresolved || r.hasUnresolved
  | .Attr _ => false
  | .Atom _ => false
  | .Var v => v.hasUnresolved

/-- Decides whether a variable is or contains a NotYetKnown variable. -/
def Variable.hasUnresolved : Variable → Bool
  | .NotYetKnown _ => true
  | .Scalar _ => false
  | .Arr _ => false
  | .ArrSub _ sub => sub.hasUnresolved

end

/-- Decides whether a statement contains a NotYetKnown variable. -/
def Statement.hasUnresolved : Statement → Bool
  | .Assignment lhs rhs => lhs.hasUnresolved || rhs.hasUnresolved
  | .Print es => es.any Expression.hasUnresolved

/-- Decides whether an action contains a NotYetKnown variable. -/
def Action.hasUnresolved (a : Action) : Bool :=
  match a.statements with
  | none => false
  | some sts => sts.any Statement.hasUnresolved

/-- Decides whether a routine contains a NotYetKnown variable. -/
def Routine.hasUnresolved (r : Routine) : Bool :=
  (match r.cond with
   | some c => c.expr.hasUnresolved
   | none => false) || r.action.hasUnresolved

/-! Theorems about the value model. -/

/-- C6: for every attribute expression evaluated with no FileState present
(inside a BEGIN or END action), evaluation returns the AttributeInBeginOrEnd
error, for every attribute including name and path. -/
theorem attribute_in_begin_or_end (a : Attribute) :
    a.evaluate none = .error .attributeInBeginOrEnd := rfl

/-- C3 counterexample: the claim says a special value compares not-equal
(rather than erroring) to a string or boolean, but comparing a special value
with a string or with a boolean is a runtime error, not a Boolean false. -/
theorem special_vs_string_errors :
    Value.binary_op (.Special ⟨5, .Ino⟩) (.Str "x") .EqualEqual =
      .error (.runtime "Cannot compare a special value to this value") ∧
    Value.binary_op (.Special ⟨5, .Ino⟩) (.Boolean false) .EqualEqual =
      .error (.runtime "Cannot compare a special value to this value") := by
  constructor <;> rfl

/-- C3 amended: equality is structural when neither operand is special; a
special value compares equal exactly to a special of the same kind with
equal payload or to a non-negative integer of equal magnitude; comparing a
special with a string, a boolean, a negative integer, or a special of a
different kind is a runtime error rather than not-equal. -/
theorem equality_semantics :
    (∀ v1 v2 : Value,
      (∀ s, v1 ≠ .Special s) → (∀ s, v2 ≠ .Special s) →
      Value.binary_op v1 v2 .EqualEqual = .ok (.Boolean (decide (v1 = v2)))) ∧
    (∀ sv sv2 : SpecialValue, sv.kind = sv2.kind →
      Value.binary_op (.Special sv) (.Special sv2) .EqualEqual =
        .ok (.Boolean (decide (sv.val = sv2.val)))) ∧
    (∀ sv sv2 : SpecialValue, sv.kind ≠ sv2.kind →
      Value.binary_op (.Special sv) (.Special sv2) .EqualEqual =
        .error (.runtime "Cannot compare special values of different kinds")) ∧
    (∀ (sv : SpecialValue) (n : Int), 0 ≤ n →
      Value.binary_op (.Special sv) (.Int n) .EqualEqual =
        .ok (.Boolean (decide (sv.val = n.toNat)))) ∧
    (∀ (sv : SpecialValue) (n : Int), n < 0 →
      Value.binary_op (.Special sv) (.Int n) .EqualEqual =
        .error (.runtime "Cannot compare a special value to a negative integer")) ∧
    (∀ (sv : SpecialValue) (s : String),
      Value.binary_op (.Special sv) (.Str s) .EqualEqual =
        .error (.runtime "Cannot compare a special value to this value")) ∧
    (∀ (sv : SpecialValue) (b : Bool),
      Value.binary_op (.Special sv) (.Boolean b) .EqualEqual =
        .error (.runtime "Cannot compare a special value to this value")) := by
  refine ⟨?_, ?_, ?_, ?_, ?_, ?_, ?_⟩
  · intro v1 v2 h1 h2
    cases v1 with
    | Special s => exact absurd rfl (h1 s)
    | _ =>
      cases v2 with
      | Special s => exact absurd rfl (h2 s)
      | _ => rfl
  · intro sv sv2 h
    simp [Value.binary_op, Value.equality, SpecialValue.binary_op, SpecialValue.equality, h]
  · intro sv sv2 h
    simp [Value.binary_op, Value.equality, SpecialValue.binary_op, SpecialValue.equality, h]
  · intro sv n h
    simp [Value.binary_op, Value.equality, SpecialValue.binary_op, SpecialValue.equality,
      Int.not_lt.mpr h]
  · intro sv n h
    simp [Value.binary_op, Value.equality, SpecialValue.binary_op, SpecialValue.equality, h]
  · intro sv s
    rfl
  · intro sv b
    rfl

/-- C3 witness: the amended equality semantics at concrete inputs. -/
theorem equality_semantics_witness :
    Value.binary_op (.Int 2) (.Str "2") .EqualEqual = .ok (.Boolean false) ∧
    Value.binary_op (.Special ⟨7, .Ino⟩) (.Int 7) .EqualEqual = .ok (.Boolean true) ∧
    Value.binary_op (.Special ⟨7, .Ino⟩) (.Int (-7)) .EqualEqual =
      .error (.runtime "Cannot compare a special value to a negative integer") ∧
    Value.binary_op (.Special ⟨7, .Ino⟩) (.Special ⟨7, .Ino⟩) .EqualEqual = .ok (.Boolean true) := by
  refine ⟨?_, ?_, ?_, ?_⟩
  · simpa using equality_semantics.1 (.Int 2) (.Str "2") (fun s => by simp) (fun s => by simp)
  · simpa using equality_semantics.2.2.2.1 ⟨7, .Ino⟩ 7 (by decide)
  · simpa using equality_semantics.2.2.2.2.1 ⟨7, .Ino⟩ (-7) (by decide)
  · simpa using equality_semantics.2.1 ⟨7, .Ino⟩ ⟨7, .Ino⟩ (by decide)

/-- C4 counterexample: the claim says dividing by a right operand that
coerces to 0 is a runtime error surfaced as a non-fatal per-file error,
never a trap or crash; the source divides with the native operator, which
panics on a zero divisor. -/
theorem divide_by_zero_panics :
    Value.binary_op (.Int 1) (.Int 0) .Divide = .error (.panic "attempt to divide by zero") := by
  rfl

/-- C4 amended: the four arithmetic operators coerce both operands with
to_integer (integer unchanged, string parsed with fallback 0, boolean as 0
or 1, special value a runtime error) and return an integer, wrapping on
overflow; dividing by a right operand that coerces to 0 panics (a trap)
instead of being surfaced as a runtime error value. -/
theorem arithmetic_semantics :
    (∀ i : Int, (Value.Int i).to_signed_int = .ok i) ∧
    (∀ s : String, (Value.Str s).to_signed_int = .ok ((parseI64 s).getD 0)) ∧
    (∀ b : Bool, (Value.Boolean b).to_signed_int = .ok (if b then 1 else 0)) ∧
    (∀ sv : SpecialValue, (Value.Special sv).to_signed_int =
      .error (.runtime "Cannot evaluate a special value as an integer")) ∧
    (∀ (v1 v2 : Value) (a b : Int), v1.to_signed_int = .ok a → v2.to_signed_int = .ok b →
      Value.binary_op v1 v2 .Plus = .ok (.Int (wrap64 (a + b))) ∧
      Value.binary_op v1 v2 .Minus = .ok (.Int (wrap64 (a - b))) ∧
      Value.binary_op v1 v2 .Multiply = .ok (.Int (wrap64 (a * b)))) ∧
    (∀ (v1 v2 : Value) (a : Int), v1.to_signed_int = .ok a → v2.to_signed_int = .ok 0 →
      Value.binary_op v1 v2 .Divide = .error (.panic "attempt to divide by zero")) ∧
    (∀ (v1 v2 : Value) (sv : SpecialValue), v1 = .Special sv ∨ v2 = .Special sv →
      ∀ op, op = OpKind.Plus ∨ op = .Minus ∨ op = .Multiply ∨ op = .Divide →
      Value.binary_op v1 v2 op =
        .error (.runtime "Cannot evaluate a special value as an integer")) := by
  refine ⟨fun i => rfl, fun s => rfl, fun b => rfl, fun sv => rfl, ?_, ?_, ?_⟩
  · intro v1 v2 a b h1 h2
    refine ⟨?_, ?_, ?_⟩ <;>
      simp [Value.binary_op, Value.integer_op, h1, h2, bind, Except.bind, pure, Except.pure]
  · intro v1 v2 a h1 h2
    simp [Value.binary_op, Value.integer_op, h1, h2, divideClosure, bind, Except.bind,
      pure, Except.pure]
  · intro v1 v2 sv hsv op hop
    have key : ∀ (g : ℤ → ℤ → Except Err ℤ) (x y : Value), (x = .Special sv ∨ y = .Special sv) →
        Value.integer_op x y g =
          .error (.runtime "Cannot evaluate a special value as an integer") := by
      intro g x y h
      rcases h with h | h <;> subst h
      · rfl
      · cases x <;>
          simp [Value.integer_op, Value.to_signed_int, bind, Except.bind, pure, Except.pure]
    rcases hop with h | h | h | h <;> subst h <;>
      simpa [Value.binary_op] using key _ v1 v2 hsv

/-- C4 witness: the amended arithmetic semantics at concrete inputs. -/
theorem arithmetic_semantics_witness :
    Value.binary_op (.Str "41") (.Boolean true) .Plus = .ok (.Int 42) ∧
    Value.binary_op (.Int 7) (.Str "oops") .Divide = .error (.panic "attempt to divide by zero") := by
  constructor
  · simpa using (arithmetic_semantics.2.2.2.2.1 (.Str "41") (.Boolean true) 41 1
      (by decide) rfl).1
  · exact arithmetic_semantics.2.2.2.2.2.1 (.Int 7) (.Str "oops") 7 rfl
      (by decide)

/-! Theorems about the variable store. -/

/-- C7: reading an array entry whose key was never assigned yields integer
0. The read is a pure observer of the store, mirroring the shared borrow of
the source, so the array contents are the same before and after by
construction; the second conjunct ties the statement-level read path to
Arrays::get_variable. -/
theorem array_default_read :
    (∀ (a : Arrays) (f : Option FileState) (s : VariableState) (aid : Nat)
       (sub : Expression) (arr : List (Value × Int)) (k : Value),
      a.arrs[aid]? = some arr →
      sub.evaluate f s = .ok k →
      arrGet arr k = none →
      Arrays.get_variable a f s aid sub = .ok (.Int 0)) ∧
    (∀ (st : VarStore) (f : Option FileState) (aid : Nat) (sub : Expression),
      LockedVars.get_variable st f (.ArrSub aid sub) =
        Arrays.get_variable st.arrays f (.Unlocked st) aid sub) := by
  constructor
  · intro a f s aid sub arr k h1 h2 h3
    simp [Arrays.get_variable, h1, h2, h3, bind, Except.bind, pure, Except.pure]
  · intro st f aid sub
    simp [LockedVars.get_variable]

/-- C7 witness: a concrete array with an entry for integer key 1 reads 0 at
the never-assigned string key. -/
theorem array_default_read_witness :
    Arrays.get_variable ⟨[[(.Int 1, 5)]]⟩ none (.Locked ⟨[], ⟨[[(.Int 1, 5)]]⟩⟩) 0
      (.Atom (.Str "k")) = .ok (.Int 0) :=
  array_default_read.1 ⟨[[(.Int 1, 5)]]⟩ none (.Locked ⟨[], ⟨[[(.Int 1, 5)]]⟩⟩) 0
    (.Atom (.Str "k")) [(.Int 1, 5)] (.Str "k") rfl (by simp [Expression.evaluate]) (by decide)

/-- The line of the serialization of one array entry, the format string of
Arrays::array_to_string. -/
def entry_line (p : Value × Int) : String :=
  p.1.display ++ ": " ++ toString p.2

/-- Modelled from the spec: the serialization described as one key-value
line per entry joined by newlines. -/
def lines_joined : List String → String
  | [] => ""
  | [x] => x
  | x :: rest => x ++ "\n" ++ lines_joined rest

/-- Folding the newline-prefixed appends of the source over the remaining
entries equals joining all lines with newlines. -/
theorem foldl_entries_eq_joined (rest : List (Value × Int)) (a : String) :
    rest.foldl (fun s p => s ++ ("\n" ++ entry_line p)) a =
      lines_joined (a :: rest.map entry_line) := by
  induction rest generalizing a with
  | nil => simp [lines_joined]
  | cons p ps ih =>
    simp only [List.foldl_cons, List.map_cons]
    rw [ih]
    cases hps : ps.map entry_line with
    | nil => simp [lines_joined, String.append_assoc]
    | cons y ys => simp [lines_joined, String.append_assoc]

/-- C9: reading a bare array name returns the serialization of the array,
which is one key-value line per entry joined by newlines, in the
(unspecified) iteration order of the map; an empty array serializes to the
empty string. -/
theorem array_serialization :
    (∀ arr : List (Value × Int),
      array_to_string arr = lines_joined (arr.map entry_line)) ∧
    array_to_string [] = "" ∧
    (∀ (st : VarStore) (f : Option FileState) (aid : Nat) (arr : List (Value × Int)),
      st.arrays.arrs[aid]? = some arr →
      LockedVars.get_variable st f (.Arr aid) = .ok (.Str (array_to_string arr))) := by
  refine ⟨?_, rfl, ?_⟩
  · intro arr
    cases arr with
    | nil => rfl
    | cons p ps =>
      simp only [array_to_string, List.map_cons]
      exact foldl_entries_eq_joined ps (entry_line p)
  · intro st f aid arr h
    simp [LockedVars.get_variable, h]

/-- C9 witness: a concrete two-entry array serializes to two lines joined
by a newline, and the Locked read of the bare array name returns it. -/
theorem array_serialization_witness :
    array_to_string [(.Int 1, 5), (.Str "k", 2)] = "1: 5\nk: 2" ∧
    LockedVars.get_variable ⟨[], ⟨[[(.Int 1, 5), (.Str "k", 2)]]⟩⟩ none (.Arr 0) =
      .ok (.Str (array_to_string [(.Int 1, 5), (.Str "k", 2)])) := by
  constructor
  · have h := array_serialization.1 [(.Int 1, 5), (.Str "k", 2)]
    rw [h]
    rfl
  · exact array_serialization.2.2 ⟨[], ⟨[[(.Int 1, 5), (.Str "k", 2)]]⟩⟩ none 0
      [(.Int 1, 5), (.Str "k", 2)] rfl

/-- C10: assignment is atomic with respect to errors. An error from the
right-hand side, or from the subscript of an array destination, is returned
and the store is exactly the store from before the assignment: the source
performs no write before either evaluation. -/
theorem assignment_atomic_on_error :
    (∀ (st : VarStore) (assignee : Variable) (f : Option FileState) (expr : Expression) (e : Err),
      expr.evaluate f (.Unlocked st) = .error e →
      LockedVars.set_variable_expression st assignee f expr = (some e, st)) ∧
    (∀ (st : VarStore) (aid : Nat) (sub : Expression) (f : Option FileState)
       (expr : Expression) (v : Value) (e : Err),
      expr.evaluate f (.Unlocked st) = .ok v →
      sub.evaluate f (.Unlocked st) = .error e →
      LockedVars.set_variable_expression st (.ArrSub aid sub) f expr = (some e, st)) := by
  constructor
  · intro st assignee f expr e h
    simp [LockedVars.set_variable_expression, h]
  · intro st aid sub f expr v e h1 h2
    simp [LockedVars.set_variable_expression, h1, h2]

/-- C10 witness: a failing right-hand side (arithmetic on a special value)
leaves a concrete store untouched, and so does a failing subscript. -/
theorem assignment_atomic_on_error_witness :
    LockedVars.set_variable_expression ⟨[7], ⟨[[]]⟩⟩ (.Scalar ⟨0⟩) none
      (.Bin .Plus (.Atom (.Special ⟨1, .Ino⟩)) (.Atom (.Int 1))) =
      (some (.runtime "Cannot evaluate a special value as an integer"), ⟨[7], ⟨[[]]⟩⟩) ∧
    LockedVars.set_variable_expression ⟨[7], ⟨[[]]⟩⟩ (.ArrSub 0
      (.Bin .Plus (.Atom (.Special ⟨1, .Ino⟩)) (.Atom (.Int 1)))) none (.Atom (.Int 3)) =
      (some (.runtime "Cannot evaluate a special value as an integer"), ⟨[7], ⟨[[]]⟩⟩) := by
  constructor
  · exact assignment_atomic_on_error.1 ⟨[7], ⟨[[]]⟩⟩ (.Scalar ⟨0⟩) none
      (.Bin .Plus (.Atom (.Special ⟨1, .Ino⟩)) (.Atom (.Int 1))) _
      (by simp [Expression.evaluate]; rfl)
  · exact assignment_atomic_on_error.2 ⟨[7], ⟨[[]]⟩⟩ 0
      (.Bin .Plus (.Atom (.Special ⟨1, .Ino⟩)) (.Atom (.Int 1))) none (.Atom (.Int 3))
      (.Int 3) _ (by simp [Expression.evaluate]) (by simp [Expression.evaluate]; rfl)

/-- C1: the right-hand side of an assignment, and the subscript of an array
destination, are evaluated against the Unlocked view of the store contents
from before any write, and the destination is written only after those
evaluations succeed; in particular every read of the assigned variable
inside the right-hand side observes its pre-assignment value. -/
theorem assignment_isolation :
    (∀ (st : VarStore) (i : Nat) (f : Option FileState) (expr : Expression) (v : Value) (n : Int),
      expr.evaluate f (.Unlocked st) = .ok v →
      v.to_signed_int = .ok n →
      i < st.scalars.length →
      LockedVars.set_variable_expression st (.Scalar ⟨i⟩) f expr =
        (none, { st with scalars := st.scalars.set i n })) ∧
    (∀ (st : VarStore) (aid : Nat) (sub : Expression) (f : Option FileState)
       (expr : Expression) (v k : Value) (arrays2 : Arrays),
      expr.evaluate f (.Unlocked st) = .ok v →
      sub.evaluate f (.Unlocked st) = .ok k →
      Arrays.set_variable st.arrays aid k v = .ok arrays2 →
      LockedVars.set_variable_expression st (.ArrSub aid sub) f expr =
        (none, { st with arrays := arrays2 })) := by
  constructor
  · intro st i f expr v n h1 h2 h3
    simp [LockedVars.set_variable_expression, h1, h2, h3]
  · intro st aid sub f expr v k arrays2 h1 h2 h3
    simp [LockedVars.set_variable_expression, h1, h2, h3]

/-- C1 witness: the assignment a = a + 1 on a store where a holds 5 reads
the pre-assignment value 5 and stores 6. -/
theorem assignment_isolation_witness :
    LockedVars.set_variable_expression ⟨[5], ⟨[]⟩⟩ (.Scalar ⟨0⟩) none
      (.Bin .Plus (.Var (.Scalar ⟨0⟩)) (.Atom (.Int 1))) = (none, ⟨[6], ⟨[]⟩⟩) := by
  have h := assignment_isolation.1 ⟨[5], ⟨[]⟩⟩ 0 none
    (.Bin .Plus (.Var (.Scalar ⟨0⟩)) (.Atom (.Int 1))) (.Int 6) 6
    (by simp [Expression.evaluate, VariableState.get_variable, UnlockedVars.get_variable]; rfl)
    rfl (by decide)
  simpa using h

/-! Theorems about the analysis pass. -/

/-- The known-arrays map the compiler builds for the program with one array
named arr, via Compiler::add_array. -/
def c8_known_arrays : List (String × Nat) := [("arr", 0)]

/-- The left-hand side the parser builds for arr subscripted by the bare
identifier x: an array subscript whose subscript expression is the
unresolved variable x. -/
def c8_lhs : Variable := .ArrSub 0 (.Var (.NotYetKnown "x"))

/-- The routine list the parser builds for the program with the single
action arr at subscript x becomes 1. -/
def c8_routines : List Routine := [⟨none, ⟨some [.Assignment c8_lhs (.Atom (.Int 1))]⟩⟩]

/-- C8 evidence: the analysis pass never recurses into the subscript
expression of an array-subscript variable, so it reports success on the
program arr at x becomes 1 while the unresolved variable x survives in the
output, and running the assignment then hits the unresolved-variable panic
of the store. This contradicts the stated invariant (and the doc comment of
the source) that no unresolved variable remains after analysis. -/
theorem analysis_leaves_unresolved_subscript :
    analyze c8_known_arrays none none c8_routines = .ok ((none, none, c8_routines), 0) ∧
    c8_routines.any Routine.hasUnresolved = true ∧
    LockedVars.set_variable_expression ⟨[], ⟨[[]]⟩⟩ c8_lhs none (.Atom (.Int 1)) =
      (some (.panic "Attempted to use unresolved variable"), ⟨[], ⟨[[]]⟩⟩) := by
  refine ⟨rfl, rfl, ?_⟩
  simp [c8_lhs, LockedVars.set_variable_expression, Expression.evaluate,
    VariableState.get_variable, UnlockedVars.get_variable]

/-! Theorems about the single-threaded walk. -/

/-- Wrapping is the identity on the i64 range. -/
theorem wrap64_id (i : Int) (h0 : -(2 ^ 63) ≤ i) (h1 : i ≤ i64Max) : wrap64 i = i := by
  unfold wrap64
  unfold i64Max at h1
  have ha : (0 : Int) ≤ i + 2 ^ 63 := by omega
  have hb : i + 2 ^ 63 < 2 ^ 64 := by omega
  rw [Int.emod_eq_of_lt ha hb]
  omega

/-- The routine list of the counting program: one unconditional routine
whose action increments the scalar v. -/
def count_routines : List Routine :=
  [⟨none, ⟨some [.Assignment (.Scalar ⟨0⟩) (.Bin .Plus (.Var (.Scalar ⟨0⟩)) (.Atom (.Int 1)))]⟩⟩]

/-- The END action of the counting program: print v. -/
def count_end_action : Action := ⟨some [.Print [.Var (.Scalar ⟨0⟩)]]⟩

/-- Full single-threaded run of the counting program over a tree. -/
def count_program_run (rootPath : String) (root : FsNode) : RunState × Option Err :=
  runProgramSingle none (some count_end_action) count_routines 1 0 rootPath root

/-- One visit of the counting routine adds one to the counter, modulo
wrapping, and changes nothing else. -/
theorem count_routines_step (f : FileState) (k : Int) (out : List String) :
    run_routines count_routines f ⟨⟨[k], ⟨[]⟩⟩, out⟩ =
      (⟨⟨[wrap64 (k + 1)], ⟨[]⟩⟩, out⟩, none) := by
  simp [count_routines, run_routines, runRoutine, runAction, runStatements, runStatement,
    LockedVars.set_variable_expression, Expression.evaluate, VariableState.get_variable,
    UnlockedVars.get_variable, Value.binary_op, Value.integer_op, Value.to_signed_int,
    bind, Except.bind, pure, Except.pure, filterErrKeep]

/-- The paths and nodes that processEntries pushes for a list of entries:
the directories among them, with their child paths, in entry order. -/
def pushesOf (path : String) : List FsNode → List (String × FsNode)
  | [] => []
  | c :: cs =>
    (match c with
     | .dir _ _ _ => [(path ++ "/" ++ c.name, c)]
     | .file _ _ => []) ++ pushesOf path cs

/-- The number of proper descendants of a node, its entries and their
subtrees. -/
def FsNode.subCount : FsNode → Nat
  | .file _ _ => 0
  | .dir _ _ cs => sizeListFs cs

/-- Remaining visits carried by a walker stack: each pending directory will
contribute one visit per node strictly below it. -/
def weightStack (stack : List (String × FsNode)) : Nat :=
  (stack.map (fun pt => pt.2.subCount)).sum

/-- Size splits as the node itself plus its proper descendants. -/
theorem size_eq_subCount (t : FsNode) : t.size = 1 + t.subCount := by
  cases t <;> rfl

/-- A list of nodes has at least one node per entry. -/
theorem length_le_sizeListFs (cs : List FsNode) : cs.length ≤ sizeListFs cs := by
  induction cs with
  | nil => simp [sizeListFs]
  | cons c cs ih =>
    have h : 1 ≤ c.size := by cases c <;> simp [FsNode.size]
    simp only [List.length_cons, sizeListFs]
    omega

/-- The nodes of an entry list split into the entries themselves plus the
descendants of the pushed directories; files push nothing and have no
descendants. -/
theorem sizeListFs_split (path : String) (cs : List FsNode) :
    sizeListFs cs = cs.length + weightStack (pushesOf path cs) := by
  induction cs with
  | nil => simp [sizeListFs, pushesOf, weightStack]
  | cons c cs ih =>
    cases c with
    | file n m =>
      simp only [sizeListFs, pushesOf, List.nil_append, List.length_cons, FsNode.size]
      simp only [weightStack] at ih ⊢
      omega
    | dir n m cs2 =>
      simp only [sizeListFs, pushesOf, List.cons_append, List.nil_append, List.length_cons,
        FsNode.size]
      simp only [weightStack, List.map_cons, List.sum_cons, FsNode.subCount] at ih ⊢
      omega

/-- Every stack entry that processEntries pushes is a directory. -/
theorem pushesOf_dirs (path : String) (cs : List FsNode) :
    ∀ pt ∈ pushesOf path cs, ∃ n m cs2, pt.2 = FsNode.dir n m cs2 := by
  induction cs with
  | nil => simp [pushesOf]
  | cons c cs ih =>
    intro pt hpt
    cases c with
    | file n m =>
      simp only [pushesOf, List.nil_append] at hpt
      exact ih pt hpt
    | dir n m cs2 =>
      simp only [pushesOf, List.cons_append, List.nil_append, List.mem_cons] at hpt
      rcases hpt with h | h
      · exact ⟨n, m, cs2, by rw [h]⟩
      · exact ih pt h

/-- The pushed directories weigh no more than the whole entry list. -/
theorem weight_pushesOf_le (path : String) (cs : List FsNode) :
    weightStack (pushesOf path cs) ≤ sizeListFs cs := by
  rw [sizeListFs_split path cs]
  omega

/-- Sizes of pushed directories are bounded by the entry list. -/
theorem stackMeasure_pushesOf_le (path : String) (cs : List FsNode) :
    stackMeasure (pushesOf path cs) ≤ sizeListFs cs := by
  induction cs with
  | nil => simp [pushesOf, stackMeasure]
  | cons c cs ih =>
    cases c with
    | file n m =>
      simp only [pushesOf, List.nil_append, sizeListFs]
      have h : 1 ≤ FsNode.size (.file n m) := by simp [FsNode.size]
      omega
    | dir n m cs2 =>
      simp only [pushesOf, List.cons_append, List.nil_append, sizeListFs]
      simp only [stackMeasure, List.map_cons, List.sum_cons] at ih ⊢
      omega

/-- On an error-free run, processEntries of the counting program visits each
entry once, incrementing the counter, and pushes exactly the directories of
the entry list. -/
theorem processEntries_count (cs : List FsNode) (path : String) (k : Int) (out : List String)
    (h0 : 0 ≤ k) (h1 : k + cs.length ≤ i64Max) :
    processEntries count_routines path cs ⟨⟨[k], ⟨[]⟩⟩, out⟩ =
      (⟨⟨[k + cs.length], ⟨[]⟩⟩, out⟩, none, pushesOf path cs) := by
  induction cs generalizing k with
  | nil => simp [processEntries, pushesOf]
  | cons c cs ih =>
    have hw : wrap64 (k + 1) = k + 1 := by
      apply wrap64_id
      · omega
      · simp only [List.length_cons] at h1
        have : (0 : Int) ≤ cs.length := by positivity
        omega
    have hrec := ih (k + 1) (by omega)
      (by simp only [List.length_cons] at h1; push_cast at h1 ⊢; omega)
    simp only [processEntries, count_routines_step, hw, hrec, pushesOf]
    have : k + 1 + (cs.length : Int) = k + ((cs.length : Int) + 1) := by ring
    simp [this]

/-- Stack weight distributes over append. -/
theorem weightStack_append (a b : List (String × FsNode)) :
    weightStack (a ++ b) = weightStack a + weightStack b := by
  simp [weightStack]

/-- Stack weight is invariant under reversal. -/
theorem weightStack_reverse (a : List (String × FsNode)) :
    weightStack a.reverse = weightStack a := by
  simp [weightStack, List.sum_reverse]

/-- Stack measure distributes over append. -/
theorem stackMeasure_append (a b : List (String × FsNode)) :
    stackMeasure (a ++ b) = stackMeasure a + stackMeasure b := by
  simp [stackMeasure]

/-- Stack measure is invariant under reversal. -/
theorem stackMeasure_reverse (a : List (String × FsNode)) :
    stackMeasure a.reverse = stackMeasure a := by
  simp [stackMeasure, List.sum_reverse]

/-- The walk of the counting program over a stack of pending directories
visits every node strictly below the stacked directories exactly once,
adding one per visit. -/
theorem walk_count (n : Nat) :
    ∀ (stack : List (String × FsNode)) (k : Int) (out : List String),
      stackMeasure stack = n →
      (∀ pt ∈ stack, ∃ nm m cs, pt.2 = FsNode.dir nm m cs) →
      0 ≤ k → k + weightStack stack ≤ i64Max →
      walk count_routines stack ⟨⟨[k], ⟨[]⟩⟩, out⟩ =
        (⟨⟨[k + weightStack stack], ⟨[]⟩⟩, out⟩, none) := by
  induction n using Nat.strong_induction_on with
  | _ n ih =>
    intro stack k out hmeas hdirs hk hbound
    cases stack with
    | nil => simp [walk, weightStack]
    | cons pt rest =>
      obtain ⟨path, t⟩ := pt
      obtain ⟨nm, m, cs, ht⟩ := hdirs (path, t) (by simp)
      simp only at ht
      subst ht
      have hwstack : weightStack ((path, FsNode.dir nm m cs) :: rest) =
          sizeListFs cs + weightStack rest := by
        simp [weightStack, FsNode.subCount]
      have hlen : (cs.length : Int) ≤ (sizeListFs cs : Int) := by
        exact_mod_cast length_le_sizeListFs cs
      have hbound2 : k + cs.length ≤ i64Max := by
        rw [hwstack] at hbound
        push_cast at hbound ⊢
        omega
      have hproc := processEntries_count cs path k out hk hbound2
      have hsplit : (sizeListFs cs : Int) =
          (cs.length : Int) + (weightStack (pushesOf path cs) : Int) := by
        exact_mod_cast sizeListFs_split path cs
      have hlt : stackMeasure ((pushesOf path cs).reverse ++ rest) < n := by
        rw [← hmeas]
        rw [stackMeasure_append, stackMeasure_reverse]
        have h1 := stackMeasure_pushesOf_le path cs
        simp only [stackMeasure, List.map_cons, List.sum_cons, FsNode.size]
        simp only [stackMeasure] at h1
        omega
      have hdirs2 : ∀ pt ∈ (pushesOf path cs).reverse ++ rest,
          ∃ nm2 m2 cs2, pt.2 = FsNode.dir nm2 m2 cs2 := by
        intro pt hpt
        rcases List.mem_append.mp hpt with h | h
        · exact pushesOf_dirs path cs pt (List.mem_reverse.mp h)
        · exact hdirs pt (List.mem_cons_of_mem _ h)
      have hknew : (0 : Int) ≤ k + cs.length := by positivity
      have hboundnew : (k + cs.length) + weightStack ((pushesOf path cs).reverse ++ rest) ≤ i64Max := by
        rw [weightStack_append, weightStack_reverse]
        rw [hwstack] at hbound
        push_cast at hbound ⊢
        omega
      have hrec := ih _ hlt ((pushesOf path cs).reverse ++ rest) (k + cs.length) out rfl
        hdirs2 hknew hboundnew
      simp only [walk, hproc]
      rw [hrec]
      rw [weightStack_append, weightStack_reverse, hwstack]
      have : k + (cs.length : Int) +
          ((weightStack (pushesOf path cs) : Int) + (weightStack rest : Int)) =
          k + ((sizeListFs cs : Int) + (weightStack rest : Int)) := by
        rw [hsplit]
        ring
      push_cast
      push_cast at this
      rw [this]

/-- Joining a single line is that line. -/
theorem intercalate_single (s x : String) : String.intercalate s [x] = x := rfl

/-- C2 amended: over any root directory, the counting program prints a
counter equal to the total number of entries visited, which is the number of
non-root entries plus one, because treewalk runs the routines against the
root itself before walking, so the root is counted too. Wrapping i64
arithmetic is the identity as long as the total fits in an i64. -/
theorem count_program_total (rootPath rootName : String) (rmd : Metadata) (cs : List FsNode)
    (hbound : (FsNode.size (.dir rootName rmd cs) : Int) ≤ i64Max) :
    count_program_run rootPath (.dir rootName rmd cs) =
      (⟨⟨[(FsNode.size (.dir rootName rmd cs) : Int)], ⟨[]⟩⟩,
        [toString ((FsNode.size (.dir rootName rmd cs) : Int)) ++ "\n"]⟩, none) ∧
    FsNode.size (.dir rootName rmd cs) = 1 + sizeListFs cs := by
  have hsizedef : FsNode.size (.dir rootName rmd cs) = 1 + sizeListFs cs := rfl
  refine ⟨?_, hsizedef⟩
  have hsize : (FsNode.size (.dir rootName rmd cs) : Int) = 1 + (sizeListFs cs : Int) := by
    rw [hsizedef]
    push_cast
    ring
  rw [hsize] at hbound
  have hw1 : wrap64 (0 + 1) = 1 := by
    apply wrap64_id <;> [norm_num; skip]
    unfold i64Max
    norm_num
  have hwalk := walk_count (stackMeasure [(rootPath, FsNode.dir rootName rmd cs)])
    [(rootPath, FsNode.dir rootName rmd cs)] 1 [] rfl
    (by
      intro pt hpt
      simp only [List.mem_singleton] at hpt
      exact ⟨rootName, rmd, cs, by rw [hpt]⟩)
    (by norm_num)
    (by
      simp only [weightStack, List.map_cons, List.map_nil, List.sum_cons, List.sum_nil,
        FsNode.subCount]
      omega)
  simp only [count_program_run, runProgramSingle, treewalk1, treewalk_single_threaded,
    List.replicate, count_routines_step, hw1]
  rw [hwalk]
  simp only [weightStack, List.map_cons, List.map_nil, List.sum_cons, List.sum_nil,
    FsNode.subCount, Nat.add_zero]
  simp only [runAction, count_end_action, runStatements, runStatement, evalExprList,
    Expression.evaluate, VariableState.get_variable, LockedVars.get_variable,
    List.getElem?_cons_zero, bind, Except.bind, pure, Except.pure]
  rw [hsize]
  simp [Value.display, intercalate_single]

/-- C2 witness: the amended count theorem at a concrete one-child tree,
printing 2 for a root with one file under it. -/
theorem count_program_total_witness :
    (FsNode.size (.dir "w" {} [.file "x" {}]) : Int) ≤ i64Max ∧
    count_program_run "w" (.dir "w" {} [.file "x" {}]) =
      (⟨⟨[2], ⟨[]⟩⟩, ["2\n"]⟩, none) := by
  have hb : (FsNode.size (.dir "w" {} [.file "x" {}]) : Int) ≤ i64Max := by
    have h2 : FsNode.size (.dir "w" ({} : Metadata) [.file "x" {}]) = 2 := rfl
    rw [h2]
    unfold i64Max
    norm_num
  refine ⟨hb, ?_⟩
  have h := (count_program_total "w" "w" {} [.file "x" {}] hb).1
  have h2 : FsNode.size (.dir "w" ({} : Metadata) [.file "x" {}]) = 2 := rfl
  rw [h2] at h
  simpa using h

/-- C2 counterexample: the claim says the printed counter equals the number
of non-root entries and that the root is not counted; on a root directory
with exactly one non-root entry the program prints 2, because treewalk runs
the routines against the root before the walk. -/
theorem count_program_counts_root :
    count_program_run "r" (.dir "r" {} [.file "a" {}]) =
      (⟨⟨[2], ⟨[]⟩⟩, ["2\n"]⟩, none) ∧
    FsNode.subCount (.dir "r" {} [.file "a" {}]) = 1 := by
  constructor
  · simp [count_program_run, runProgramSingle, count_routines, count_end_action, treewalk1,
      treewalk_single_threaded, walk, processEntries, run_routines, runRoutine, runAction,
      runStatements, runStatement, LockedVars.set_variable_expression, Expression.evaluate,
      VariableState.get_variable, UnlockedVars.get_variable, LockedVars.get_variable,
      Value.binary_op, Value.integer_op, Value.to_signed_int, wrap64, Value.is_truthy,
      evalExprList, Value.display, FileState.ofNode, FsNode.name, FsNode.md, filterErrKeep,
      bind, Except.bind, pure, Except.pure]
    rfl
  · rfl

/-- C5 amended: in single-threaded mode an error from the routines of one
file skips the remaining routines for that file and is filtered at the
per-file boundary, and a surviving runtime error makes the walk return the
error immediately, aborting instead of continuing with the remaining
entries; the question-mark propagation in treewalk_single_threaded matches
the stated policy of the source that runtime errors stop program
operation. -/
theorem single_thread_error_propagation :
    (∀ (r : Routine) (rest : List Routine) (f : FileState) (rs rs2 : RunState) (e : Err),
      runRoutine r f rs = (rs2, some e) →
      run_routines (r :: rest) f rs = (rs2, filterErrKeep e)) ∧
    (∀ (routines : List Routine) (path nm : String) (m : Metadata) (cs : List FsNode)
       (rest : List (String × FsNode)) (rs rs2 : RunState) (e : Err)
       (ps : List (String × FsNode)),
      processEntries routines path cs rs = (rs2, some e, ps) →
      walk routines ((path, .dir nm m cs) :: rest) rs = (rs2, some e)) := by
  constructor
  · intro r rest f rs rs2 e h
    simp [run_routines, h]
  · intro routines path nm m cs rest rs rs2 e ps h
    simp [walk, h]

/-- The failing routine of the abort scenario: on regular files, run
arithmetic on the owner attribute, a runtime error. -/
def c5_cond_routine : Routine :=
  ⟨some ⟨.Bin .EqualEqual (.Attr .Type) (.Atom (.Str "file"))⟩,
   ⟨some [.Print [.Bin .Plus (.Attr .Owner) (.Atom (.Int 1))]]⟩⟩

/-- The marker routine of the abort scenario: print the word after. -/
def c5_marker_routine : Routine := ⟨none, ⟨some [.Print [.Atom (.Str "after")]]⟩⟩

/-- The routine list of the abort scenario: print the path, then the failing
routine, then the marker. -/
def c5_routines : List Routine := [⟨none, ⟨none⟩⟩, c5_cond_routine, c5_marker_routine]

/-- A root directory holding the two regular files a and b. -/
def c5_tree : FsNode := .dir "r" { ftype := .dir } [.file "a" {}, .file "b" {}]

/-- C5 witness: the propagation theorem applied to the abort scenario. The
failing routine on file a ends that file with a runtime error, skipping the
marker routine, and the walk stops with that error, with file b
unvisited. -/
theorem single_thread_error_propagation_witness :
    run_routines (c5_routines.drop 1) (FileState.ofNode "r/a" (.file "a" {}))
        ⟨⟨[], ⟨[]⟩⟩, ["r\n", "after\n", "r/a\n"]⟩ =
      (⟨⟨[], ⟨[]⟩⟩, ["r\n", "after\n", "r/a\n"]⟩,
       some (.runtime "Cannot evaluate a special value as an integer")) ∧
    walk c5_routines [("r", c5_tree)] ⟨⟨[], ⟨[]⟩⟩, ["r\n", "after\n"]⟩ =
      (⟨⟨[], ⟨[]⟩⟩, ["r\n", "after\n", "r/a\n"]⟩,
       some (.runtime "Cannot evaluate a special value as an integer")) := by
  constructor
  · exact single_thread_error_propagation.1 c5_cond_routine [c5_marker_routine]
      (FileState.ofNode "r/a" (.file "a" {}))
      ⟨⟨[], ⟨[]⟩⟩, ["r\n", "after\n", "r/a\n"]⟩
      ⟨⟨[], ⟨[]⟩⟩, ["r\n", "after\n", "r/a\n"]⟩
      (.runtime "Cannot evaluate a special value as an integer")
      (by
        simp [c5_cond_routine, runRoutine, Expression.evaluate, Attribute.evaluate,
          Attribute.evaluate_with_file, Attribute.evaluate_needs_stat, FileState.ofNode,
          FsNode.md, Value.binary_op, Value.equality, SpecialValue.binary_op,
          SpecialValue.equality, Value.integer_op, Value.to_signed_int, Value.is_truthy,
          runAction, runStatements, runStatement, evalExprList, intercalate_single,
          bind, Except.bind, pure, Except.pure])
  · exact single_thread_error_propagation.2 c5_routines "r" "r" { ftype := .dir }
      [.file "a" {}, .file "b" {}] []
      ⟨⟨[], ⟨[]⟩⟩, ["r\n", "after\n"]⟩
      ⟨⟨[], ⟨[]⟩⟩, ["r\n", "after\n", "r/a\n"]⟩
      (.runtime "Cannot evaluate a special value as an integer") []
      (by
        simp [c5_routines, c5_cond_routine, c5_marker_routine, processEntries, run_routines,
          runRoutine, runAction, runStatements, runStatement, Expression.evaluate,
          Attribute.evaluate, Attribute.evaluate_with_file, Attribute.evaluate_needs_stat,
          FileState.ofNode, FsNode.md, FsNode.name, Value.binary_op, Value.equality,
          SpecialValue.binary_op, SpecialValue.equality, Value.integer_op,
          Value.int_to_bool_op, Value.to_signed_int, Value.is_truthy, evalExprList,
          intercalate_single, filterErrKeep, bind, Except.bind, pure, Except.pure])

/-- C5 counterexample: the claim says that in single-threaded mode a runtime
error from one file is logged and the walk continues to subsequent files; on
this tree the runtime error on file a makes the walk return the error, the
marker routine for file a is skipped, and file b is never visited, so its
path never appears in the output. -/
theorem single_thread_error_aborts_walk :
    treewalk1 c5_routines "r" c5_tree ⟨⟨[], ⟨[]⟩⟩, []⟩ =
      (⟨⟨[], ⟨[]⟩⟩, ["r\n", "after\n", "r/a\n"]⟩,
       some (.runtime "Cannot evaluate a special value as an integer")) := by
  simp [treewalk1, treewalk_single_threaded, c5_routines, c5_tree, walk, processEntries,
    run_routines, runRoutine, runAction, runStatements, runStatement,
    LockedVars.set_variable_expression, Expression.evaluate, VariableState.get_variable,
    UnlockedVars.get_variable, LockedVars.get_variable, Attribute.evaluate,
    Attribute.evaluate_with_file, Attribute.evaluate_needs_stat, Value.binary_op,
    Value.equality, SpecialValue.binary_op, SpecialValue.equality, Value.integer_op,
    Value.int_to_bool_op, Value.to_signed_int, Value.is_truthy, evalExprList, Value.display,
    FileState.ofNode, FsNode.name, FsNode.md, filterErrKeep, intercalate_single, bind,
    Except.bind, pure, Except.pure, c5_cond_routine, c5_marker_routine]

end Puffin
